import Mathlib

/-!
Verification of the leadfoot-driver core logic.

The development shallowly embeds the two non-trivial components of the
repository:

* `src/wait-for.js` — the bounded polling primitive `waitFor`;
* `src/index.js` (`Driver.prototype._$`) — the hierarchical selector-path
  resolver.

Machine time is modelled discretely: every invocation of the condition
function consumes `dur k` milliseconds of wall clock, and the clock is an
explicit `Nat` threaded through the recursion.  Recursion depth is bounded by
explicit fuel (the JavaScript recursion is unbounded for an always-falsy,
zero-duration condition), with fuel exhaustion reported as `none`.
-/

deriving instance DecidableEq for Except

namespace LeadfootDriver

/-! ### Embedding of `src/wait-for.js` -/

/-- Terminal outcome of a poll sequence: the three terminal states of
`waitFor` — fulfilled with no value, rejected with the timeout message, or
rejected with the reason produced by `conditionFn` itself. -/
inductive PollResult (ε : Type) where
  | success : PollResult ε
  | timeout (msg : String) : PollResult ε
  | failure (e : ε) : PollResult ε
deriving DecidableEq, Repr

/-- The `options` argument of `waitFor`.  `timeout = some t` models
`'timeout' in options` being true with value `t`; `errorMsg = some s` models
`options.errorMsg === s`.  Calling `waitFor` without options (the JS
`if (!options) options = {}` branch) is `⟨none, none⟩`. -/
structure WaitOptions where
  timeout : Option Int
  errorMsg : Option String
deriving DecidableEq, Repr

/-- `timeout = 'timeout' in options ? options.timeout : 1000` — a presence
check, so an explicit `0` (or a negative value) is honored. -/
def effectiveTimeout (o : WaitOptions) : Int :=
  match o.timeout with
  | some t => t
  | none => 1000

/-- `errorMsg = options.errorMsg || 'Timeout'` — a truthiness check, so the
empty string (the only falsy string) also falls back to the default. -/
def effectiveErrorMsg (o : WaitOptions) : String :=
  match o.errorMsg with
  | some s => if s = "" then "Timeout" else s
  | none => "Timeout"

/-- Core recursion of `waitFor`.  `cond k` is the settled result of the
`(k+1)`-th invocation of `conditionFn` (`Except.error` for a rejection,
`Except.ok b` for a fulfillment with a value of truthiness `b`), and `dur k`
is the wall-clock time that invocation takes to settle.  `clock` is the
current time; `start = clock` is recorded on entry, `conditionFn()` is
invoked, and in the `.then` callback `delay = now − start` and
`remaining = timeout − delay` are computed exactly as in the source.  The
result carries the total number of invocations performed. -/
def waitForAux (cond : Nat → Except ε Bool) (dur : Nat → Nat) (errorMsg : String) :
    Nat → Int → Nat → Nat → Option (PollResult ε × Nat)
  | 0, _, _, _ => none
  | fuel + 1, timeout, clock, k =>
    match cond k with
    | Except.error e => some (PollResult.failure e, k + 1)
    | Except.ok true => some (PollResult.success, k + 1)
    | Except.ok false =>
      let delay : Int := ((clock + dur k : Nat) : Int) - (clock : Int)
      let remaining : Int := timeout - delay
      if remaining ≤ 0 then some (PollResult.timeout errorMsg, k + 1)
      else waitForAux cond dur errorMsg fuel remaining (clock + dur k) (k + 1)

/-- `module.exports = function waitFor(conditionFn, options)`: apply the
option defaults and start polling at invocation index `0` with the current
clock value `clock`. -/
def waitFor (cond : Nat → Except ε Bool) (dur : Nat → Nat) (opts : WaitOptions)
    (clock fuel : Nat) : Option (PollResult ε × Nat) :=
  waitForAux cond dur (effectiveErrorMsg opts) fuel (effectiveTimeout opts) clock 0

/-- Total wall-clock time consumed by the first `n` invocations of the
condition function. -/
def elapsed (dur : Nat → Nat) : Nat → Nat
  | 0 => 0
  | n + 1 => elapsed dur n + dur n

/-! ### Embedding of `Driver.prototype._$` (`src/index.js`)

The selector-path resolver.  `build-selector.js` is required by the source
but is not part of this repository snapshot, so the terminal string case —
`context.findAllByCssSelector(buildSelector(this._selectors, pathContext,
path))` — is abstracted as a `find` capability parameter taking the context,
the accumulated `pathContext` label and the string path, and returning either
the ordered list of matched elements or a failure of the underlying client.
-/

/-- An element of an array-form selector path.  The documented input format
is "a combination of dot-separated keys and integers"; `undef` models an
explicit `undefined` hole (JavaScript `path[1] === undefined` holds both for
a too-short array and for an explicit hole). -/
inductive PathElem where
  | key (s : String)
  | num (n : Nat)
  | undef
deriving DecidableEq, Repr

/-- The `path` argument of `_$`: either a plain dot-separated string or an
array of path elements. -/
inductive SelPath where
  | str (s : String)
  | seq (items : List PathElem)
deriving DecidableEq, Repr

/-- The resolution context: the root automation command (`this._cmd`) or a
previously selected single element. -/
inductive Ctx (E : Type) where
  | root
  | elem (e : E)
deriving DecidableEq, Repr

/-- A resolved value: the raw array of matched elements (`return els`), or
the bare selected element (`return el`) — the source returns the element
itself, not a one-element array. -/
inductive RValue (E : Type) where
  | many (els : List E)
  | single (el : E)
deriving DecidableEq, Repr

/-- A resolution failure: a rejection propagated from the element-lookup
capability, a `new Error(...)` thrown by `_$` itself, or an input outside
the documented path format (where the source's behavior depends on the
missing `build-selector.js` or on JavaScript string/number coercion and is
not modelled). -/
inductive RError (F : Type) where
  | fromFind (f : F)
  | thrown (msg : String)
  | illFormed
deriving DecidableEq, Repr

/-- `if (pathContext) { pathContext += '.' + firstPart; } else { pathContext
= firstPart; }` — a truthiness check, so an empty accumulated label is also
replaced rather than dot-joined. -/
def extendLabel (pathContext : Option String) (firstPart : String) : String :=
  match pathContext with
  | some p => if p = "" then firstPart else p ++ "." ++ firstPart
  | none => firstPart

/-- The message of the `new Error` thrown when the requested index is out of
range, exactly as concatenated in the source. -/
def tooFewMsg (index : Nat) (label : String) (found : Nat) : String :=
  "Expected at least " ++ toString (index + 1) ++ " elements at region \"" ++
    label ++ "\", but only found " ++ toString found ++ "."

/-- The array branch of `_$`: `firstPart = path[0]`, `index = path[1]`,
`rest = path.slice(2)`.  `firstPart` is resolved first (the source's
recursive `this._$(firstPart, context, pathContext)` immediately dispatches
to the string branch, inlined here as the `find` call); then, in the `.then`
callback, an absent (`undefined`) index returns the elements unchanged, an
out-of-range index throws, an in-range index with empty `rest` returns the
bare element, and otherwise resolution recurses on `rest` with the selected
element as context and the extended label.  Paths outside the documented
format (empty array, a leading or doubled index, a key in index position)
are mapped to `RError.illFormed`. -/
def resolveSeq (find : Ctx E → Option String → String → Except F (List E)) :
    List PathElem → Ctx E → Option String → Except (RError F) (RValue E)
  | [], _, _ => Except.error RError.illFormed
  | PathElem.num _ :: _, _, _ => Except.error RError.illFormed
  | PathElem.undef :: _, _, _ => Except.error RError.illFormed
  | [PathElem.key s], ctx, pathContext =>
    match find ctx pathContext s with
    | Except.error f => Except.error (RError.fromFind f)
    | Except.ok els => Except.ok (RValue.many els)
  | PathElem.key s :: PathElem.undef :: _, ctx, pathContext =>
    match find ctx pathContext s with
    | Except.error f => Except.error (RError.fromFind f)
    | Except.ok els => Except.ok (RValue.many els)
  | PathElem.key _ :: PathElem.key _ :: _, _, _ => Except.error RError.illFormed
  | PathElem.key s :: PathElem.num index :: rest, ctx, pathContext =>
    match find ctx pathContext s with
    | Except.error f => Except.error (RError.fromFind f)
    | Except.ok els =>
      let label := extendLabel pathContext s
      match els[index]? with
      | none => Except.error (RError.thrown (tooFewMsg index label els.length))
      | some el =>
        if rest.isEmpty then Except.ok (RValue.single el)
        else resolveSeq find rest (Ctx.elem el) (some label)

/-- `Driver.prototype._$(path, context, pathContext)`: a non-array path hits
the terminal string case; an array path is handled by `resolveSeq`. -/
def resolve (find : Ctx E → Option String → String → Except F (List E)) :
    SelPath → Ctx E → Option String → Except (RError F) (RValue E)
  | SelPath.str s, ctx, pathContext =>
    match find ctx pathContext s with
    | Except.error f => Except.error (RError.fromFind f)
    | Except.ok els => Except.ok (RValue.many els)
  | SelPath.seq items, ctx, pathContext => resolveSeq find items ctx pathContext

/-- A concrete element-lookup capability used to exercise the resolver:
region `"a"` at the root holds five elements and region `"b"` inside the
third of them holds one. -/
def findEx : Ctx Nat → Option String → String → Except String (List Nat) :=
  fun ctx _ s =>
    match ctx, s with
    | Ctx.root, "a" => Except.ok [10, 11, 12, 13, 14]
    | Ctx.elem 12, "b" => Except.ok [77]
    | _, _ => Except.ok []

/-! ### Basic lemmas about `waitForAux` -/

/-- Whenever `waitForAux` settles, the reported invocation count is strictly
greater than the starting invocation index. -/
theorem waitForAux_count_gt (cond : Nat → Except ε Bool) (dur : Nat → Nat)
    (msg : String) :
    ∀ (fuel : Nat) (T : Int) (c k : Nat) (r : PollResult ε) (n : Nat),
      waitForAux cond dur msg fuel T c k = some (r, n) → k < n := by
  intro fuel
  induction fuel with
  | zero => intro T c k r n h; simp [waitForAux] at h
  | succ fuel ih =>
    intro T c k r n h
    simp only [waitForAux] at h
    rcases hc : cond k with e | b
    · rw [hc] at h
      simp at h
      omega
    · rw [hc] at h
      cases b with
      | true => simp at h; omega
      | false =>
        simp only at h
        by_cases hrem : (T - (((c + dur k : Nat) : Int) - (c : Int))) ≤ 0
        · rw [if_pos hrem] at h
          simp at h
          omega
        · rw [if_neg hrem] at h
          have := ih _ _ _ _ _ h
          omega

/-- A timeout rejection always carries the `errorMsg` that was threaded in. -/
theorem waitForAux_timeout_msg (cond : Nat → Except ε Bool) (dur : Nat → Nat)
    (msg : String) :
    ∀ (fuel : Nat) (T : Int) (c k : Nat) (m : String) (n : Nat),
      waitForAux cond dur msg fuel T c k = some (PollResult.timeout m, n) →
        m = msg := by
  intro fuel
  induction fuel with
  | zero => intro T c k m n h; simp [waitForAux] at h
  | succ fuel ih =>
    intro T c k m n h
    simp only [waitForAux] at h
    rcases hc : cond k with e | b
    · rw [hc] at h; simp at h
    · rw [hc] at h
      cases b with
      | true => simp at h
      | false =>
        simp only at h
        by_cases hrem : (T - (((c + dur k : Nat) : Int) - (c : Int))) ≤ 0
        · rw [if_pos hrem] at h
          simp at h
          exact h.1.symm
        · rw [if_neg hrem] at h
          exact ih _ _ _ _ _ h

/-- Budget-shifting invariant: if the first `j` invocations all resolve falsy
and each of them leaves a strictly positive remaining budget, then the whole
call is equal to the recursion resumed at invocation index `j`, with budget
`T − elapsed j` (the original timeout minus the total time elapsed since the
first invocation's start) and clock `c + elapsed j`. -/
theorem waitForAux_shift (cond : Nat → Except ε Bool) (dur : Nat → Nat)
    (msg : String) (T : Int) (c : Nat) (j fuel : Nat)
    (hfalsy : ∀ i, i < j → cond i = Except.ok false)
    (hrem : ∀ i, i < j → (elapsed dur (i + 1) : Int) < T)
    (hfuel : j ≤ fuel) :
    waitForAux cond dur msg fuel T c 0 =
      waitForAux cond dur msg (fuel - j) (T - elapsed dur j)
        (c + elapsed dur j) j := by
  induction j with
  | zero => simp [elapsed]
  | succ j ih =>
    have hstep : waitForAux cond dur msg fuel T c 0 =
        waitForAux cond dur msg (fuel - j) (T - elapsed dur j)
          (c + elapsed dur j) j := by
      apply ih
      · intro i hi; exact hfalsy i (by omega)
      · intro i hi; exact hrem i (by omega)
      · omega
    rw [hstep]
    obtain ⟨d, hd⟩ : ∃ d, fuel - j = d + 1 := ⟨fuel - j - 1, by omega⟩
    rw [hd]
    simp only [waitForAux, hfalsy j (by omega)]
    have hpos : ¬ ((T - elapsed dur j) -
        ((((c + elapsed dur j) + dur j : Nat) : Int) -
          ((c + elapsed dur j : Nat) : Int)) ≤ 0) := by
      have h1 := hrem j (by omega)
      have h2 : elapsed dur (j + 1) = elapsed dur j + dur j := rfl
      rw [h2] at h1
      push_cast at h1 ⊢
      omega
    rw [if_neg hpos]
    have harith : (T - elapsed dur j) -
        ((((c + elapsed dur j) + dur j : Nat) : Int) -
          ((c + elapsed dur j : Nat) : Int)) = T - elapsed dur (j + 1) := by
      have h2 : elapsed dur (j + 1) = elapsed dur j + dur j := rfl
      rw [h2]
      push_cast
      ring
    have hclock : (c + elapsed dur j) + dur j = c + elapsed dur (j + 1) := by
      have h2 : elapsed dur (j + 1) = elapsed dur j + dur j := rfl
      omega
    have hfuel' : fuel - j - 1 = fuel - (j + 1) := by omega
    rw [harith, hclock]
    congr 1
    omega

/-! ### Claim theorems about `waitFor` -/

/-- Claim C2: if the `(j+1)`-th invocation of `conditionFn` rejects with
reason `e`, all earlier invocations having resolved falsy within the budget,
then `waitFor` rejects with that same reason value, unwrapped, and
`conditionFn` is invoked exactly `j + 1` times — the rejection is never
retried. -/
theorem waitFor_error_short_circuit (cond : Nat → Except ε Bool) (dur : Nat → Nat)
    (opts : WaitOptions) (c : Nat) (e : ε) (j fuel : Nat)
    (hfalsy : ∀ i, i < j → cond i = Except.ok false)
    (hwithin : ∀ i, i < j → (elapsed dur (i + 1) : Int) < effectiveTimeout opts)
    (herr : cond j = Except.error e)
    (hfuel : j < fuel) :
    waitFor cond dur opts c fuel = some (PollResult.failure e, j + 1) := by
  unfold waitFor
  rw [waitForAux_shift cond dur _ _ _ j fuel hfalsy hwithin (by omega)]
  obtain ⟨d, hd⟩ : ∃ d, fuel - j = d + 1 := ⟨fuel - j - 1, by omega⟩
  rw [hd]
  simp [waitForAux, herr]

/-- Concrete run of `waitFor_error_short_circuit`: the third invocation
rejects with reason `42`, the first two resolve falsy well within the budget,
and the whole call rejects with `42` after exactly three invocations. -/
theorem waitFor_error_short_circuit_witness :
    waitFor (fun k => if k < 2 then Except.ok false else Except.error 42)
      (fun _ => 1) ⟨some 100, none⟩ 0 4 = some (PollResult.failure 42, 3) :=
  waitFor_error_short_circuit _ _ _ 0 42 2 4 (by decide) (by decide) (by decide)
    (by omega)

/-- Claim C8: if the `(j+1)`-th invocation of `conditionFn` resolves truthy,
all earlier invocations having resolved falsy within the budget, then
`waitFor` settles successfully with no value and `conditionFn` is invoked
exactly `j + 1` times — never again after the truthy result. -/
theorem waitFor_success_stops (cond : Nat → Except ε Bool) (dur : Nat → Nat)
    (opts : WaitOptions) (c : Nat) (j fuel : Nat)
    (hfalsy : ∀ i, i < j → cond i = Except.ok false)
    (hwithin : ∀ i, i < j → (elapsed dur (i + 1) : Int) < effectiveTimeout opts)
    (htrue : cond j = Except.ok true)
    (hfuel : j < fuel) :
    waitFor cond dur opts c fuel = some (PollResult.success, j + 1) := by
  unfold waitFor
  rw [waitForAux_shift cond dur _ _ _ j fuel hfalsy hwithin (by omega)]
  obtain ⟨d, hd⟩ : ∃ d, fuel - j = d + 1 := ⟨fuel - j - 1, by omega⟩
  rw [hd]
  simp [waitForAux, htrue]

/-- Concrete run of `waitFor_success_stops`: the second invocation resolves
truthy, so the call succeeds after exactly two invocations. -/
theorem waitFor_success_stops_witness :
    waitFor (fun k => (Except.ok (decide (k = 1)) : Except Unit Bool))
      (fun _ => 1) ⟨none, none⟩ 0 3 = some (PollResult.success, 2) :=
  waitFor_success_stops _ _ _ 0 1 3 (by decide) (by decide) (by decide) (by omega)

/-- Claim C4: with `options.timeout = 0`, `waitFor` makes at most one
attempt: any settlement reports exactly one invocation, and if the single
invocation resolves falsy the call rejects immediately with the configured
error message, with no second invocation. -/
theorem waitFor_timeout_zero (cond : Nat → Except ε Bool) (dur : Nat → Nat)
    (em : Option String) (c fuel : Nat) (hfuel : 0 < fuel) :
    (∀ r n, waitFor cond dur ⟨some 0, em⟩ c fuel = some (r, n) → n = 1)
    ∧ (cond 0 = Except.ok false →
        waitFor cond dur ⟨some 0, em⟩ c fuel =
          some (PollResult.timeout (effectiveErrorMsg ⟨some 0, em⟩), 1)) := by
  have hT : effectiveTimeout ⟨some 0, em⟩ = 0 := rfl
  obtain ⟨d, hd⟩ : ∃ d, fuel = d + 1 := ⟨fuel - 1, by omega⟩
  subst hd
  have hle : ((0 : Int) - (((c + dur 0 : Nat) : Int) - (c : Int)) ≤ 0) := by
    push_cast
    omega
  constructor
  · intro r n h
    unfold waitFor at h
    rw [hT] at h
    rcases hc : cond 0 with e | b
    · simp only [waitForAux, hc] at h
      simp at h
      omega
    · cases b with
      | true =>
        simp only [waitForAux, hc] at h
        simp at h
        omega
      | false =>
        simp only [waitForAux, hc] at h
        rw [if_pos hle] at h
        simp at h
        omega
  · intro h0
    unfold waitFor
    rw [hT]
    simp only [waitForAux, h0]
    rw [if_pos hle]

/-- Concrete run of `waitFor_timeout_zero`: with `timeout: 0` and
`errorMsg: "X"` an always-falsy condition is invoked once and the call
rejects with message exactly `"X"`. -/
theorem waitFor_timeout_zero_witness :
    waitFor (fun _ => (Except.ok false : Except Unit Bool)) (fun _ => 7)
      ⟨some 0, some "X"⟩ 5 3 =
      some (PollResult.timeout (effectiveErrorMsg ⟨some 0, some "X"⟩), 1) :=
  (waitFor_timeout_zero _ _ _ 5 3 (by omega)).2 rfl

/-- Claim C9: for every value of `options.timeout`, including `0` and
negative values, `conditionFn` is invoked at least once before any budget
check: every settlement reports at least one invocation, and a truthy first
result makes the call succeed even though the budget was already exhausted
at the start. -/
theorem waitFor_first_attempt (cond : Nat → Except ε Bool) (dur : Nat → Nat)
    (t : Int) (em : Option String) (c fuel : Nat) (hfuel : 0 < fuel) :
    (∀ r n, waitFor cond dur ⟨some t, em⟩ c fuel = some (r, n) → 1 ≤ n)
    ∧ (cond 0 = Except.ok true →
        waitFor cond dur ⟨some t, em⟩ c fuel = some (PollResult.success, 1)) := by
  constructor
  · intro r n h
    have := waitForAux_count_gt cond dur (effectiveErrorMsg ⟨some t, em⟩)
      fuel (effectiveTimeout ⟨some t, em⟩) c 0 r n h
    omega
  · intro h0
    obtain ⟨d, hd⟩ : ∃ d, fuel = d + 1 := ⟨fuel - 1, by omega⟩
    subst hd
    unfold waitFor
    simp [waitForAux, h0]

/-- Concrete run of `waitFor_first_attempt`: with a negative timeout of
`-5` milliseconds, a condition whose first invocation resolves truthy still
makes `waitFor` succeed after exactly one invocation. -/
theorem waitFor_first_attempt_witness :
    waitFor (fun _ => (Except.ok true : Except Unit Bool)) (fun _ => 4)
      ⟨some (-5), none⟩ 0 2 = some (PollResult.success, 1) :=
  (waitFor_first_attempt _ _ (-5) none 0 2 (by omega)).2 rfl

/-- Claim C10: when `options.errorMsg` is the empty string, any timeout
rejection carries the default message `"Timeout"`, not the empty string;
the same default applies when the option is absent; and `options.timeout = 0`
is honored rather than replaced by the default `1000`. -/
theorem waitFor_errorMsg_default (cond : Nat → Except ε Bool) (dur : Nat → Nat)
    (t : Option Int) (c fuel : Nat) (m : String) (n : Nat)
    (h : waitFor cond dur ⟨t, some ""⟩ c fuel = some (PollResult.timeout m, n)) :
    m = "Timeout" ∧ effectiveErrorMsg ⟨t, none⟩ = "Timeout"
    ∧ effectiveTimeout ⟨some 0, some ""⟩ = 0 := by
  refine ⟨?_, rfl, rfl⟩
  have := waitForAux_timeout_msg cond dur (effectiveErrorMsg ⟨t, some ""⟩)
    fuel (effectiveTimeout ⟨t, some ""⟩) c 0 m n h
  exact this.trans rfl

/-- Concrete run of `waitFor_errorMsg_default`: with `errorMsg: ""` and
`timeout: 0`, an always-falsy condition produces a rejection whose message is
the default `"Timeout"`. -/
theorem waitFor_errorMsg_default_witness :
    "Timeout" = "Timeout" ∧ effectiveErrorMsg ⟨some 0, none⟩ = "Timeout"
    ∧ effectiveTimeout ⟨some 0, some ""⟩ = 0 :=
  waitFor_errorMsg_default (fun _ => (Except.ok false : Except Unit Bool))
    (fun _ => 0) (some 0) 0 1 "Timeout" 1 (by decide)

/-- Claim C1 (amended): the deadline of `waitFor` is absolute.  If the first
`j` invocations resolve falsy within the budget and invocation `j` also
resolves falsy, then (a) the call equals the recursion resumed at invocation
`j` whose remaining budget is exactly the original timeout minus the time
elapsed since the first invocation's start — no retry extends the overall
budget — and (b) the call rejects with a timeout at invocation `j` exactly
when the clock observed after that falsy result *reaches or exceeds* the
first invocation's start time plus the original `options.timeout` (the code
times out on `remaining ≤ 0`, so equality already rejects). -/
theorem waitFor_absolute_deadline (cond : Nat → Except ε Bool) (dur : Nat → Nat)
    (opts : WaitOptions) (c : Nat) (j fuel : Nat)
    (hfalsy : ∀ i, i < j → cond i = Except.ok false)
    (hwithin : ∀ i, i < j → (elapsed dur (i + 1) : Int) < effectiveTimeout opts)
    (hj : cond j = Except.ok false)
    (hfuel : j < fuel) :
    waitFor cond dur opts c fuel =
      waitForAux cond dur (effectiveErrorMsg opts) (fuel - j)
        (effectiveTimeout opts - elapsed dur j) (c + elapsed dur j) j
    ∧ (waitFor cond dur opts c fuel =
        some (PollResult.timeout (effectiveErrorMsg opts), j + 1) ↔
        (c : Int) + effectiveTimeout opts ≤ ((c + elapsed dur (j + 1) : Nat) : Int)) := by
  have hshift := waitForAux_shift cond dur (effectiveErrorMsg opts)
    (effectiveTimeout opts) c j fuel hfalsy hwithin (by omega)
  have h2 : elapsed dur (j + 1) = elapsed dur j + dur j := rfl
  refine ⟨hshift, ?_⟩
  unfold waitFor
  rw [hshift]
  obtain ⟨d, hd⟩ : ∃ d, fuel - j = d + 1 := ⟨fuel - j - 1, by omega⟩
  rw [hd]
  simp only [waitForAux, hj]
  by_cases hrem : ((effectiveTimeout opts - elapsed dur j) -
      ((((c + elapsed dur j) + dur j : Nat) : Int) -
        ((c + elapsed dur j : Nat) : Int)) ≤ 0)
  · rw [if_pos hrem]
    apply iff_of_true rfl
    rw [h2]
    push_cast at hrem ⊢
    omega
  · rw [if_neg hrem]
    apply iff_of_false
    · intro h
      have := waitForAux_count_gt cond dur (effectiveErrorMsg opts) d _ _ _ _ _ h
      omega
    · rw [h2]
      push_cast at hrem ⊢
      omega

/-- Concrete run of `waitFor_absolute_deadline`: with a 10 ms budget and
3 ms always-falsy attempts, the fourth attempt (index 3) enters with budget
`10 − 9 = 1` ms and times out, since the clock it observes (12) reaches the
absolute deadline. -/
theorem waitFor_absolute_deadline_witness :
    waitFor (fun _ => (Except.ok false : Except Unit Bool)) (fun _ => 3)
      ⟨some 10, none⟩ 0 5 =
      waitForAux (fun _ => (Except.ok false : Except Unit Bool)) (fun _ => 3)
        (effectiveErrorMsg ⟨some 10, none⟩) 2
        (effectiveTimeout ⟨some 10, none⟩ - elapsed (fun _ => 3) 3)
        (0 + elapsed (fun _ => 3) 3) 3
    ∧ (waitFor (fun _ => (Except.ok false : Except Unit Bool)) (fun _ => 3)
        ⟨some 10, none⟩ 0 5 =
        some (PollResult.timeout (effectiveErrorMsg ⟨some 10, none⟩), 4) ↔
        (0 : Int) + effectiveTimeout ⟨some 10, none⟩ ≤
          ((0 + elapsed (fun _ => 3) 4 : Nat) : Int)) :=
  waitFor_absolute_deadline _ _ _ 0 3 5 (fun _ _ => rfl) (by decide) rfl (by omega)

/-- Counterexample to claim C1 as stated: with `timeout: 5` and a first
attempt that takes exactly 5 ms to resolve falsy, the call rejects with a
timeout even though the clock observed after the falsy result (5) equals and
does not *exceed* the start time plus the original timeout (0 + 5): the code
rejects on `remaining ≤ 0`, i.e. already at equality. -/
theorem waitFor_deadline_boundary_cex :
    waitFor (fun _ => (Except.ok false : Except Unit Bool)) (fun _ => 5)
      ⟨some 5, none⟩ 0 2 = some (PollResult.timeout "Timeout", 1)
    ∧ ¬ ((0 : Int) + effectiveTimeout ⟨some 5, none⟩ <
        ((0 + elapsed (fun _ => 5) 1 : Nat) : Int)) := by
  constructor
  · decide
  · decide

/-! ### Claim theorems about the selector-path resolver -/

/-- Claim C3: when the path's index is present and out of range (at least
`els.length ≤ index` elements were resolved for `firstPart`), resolution
fails with a thrown error whose message is exactly
`Expected at least N elements at region "<label>", but only found M.`,
where `N = index + 1`, the label is the accumulated context label extended
with `firstPart` (dot-joined if a label already exists), and `M` is the
actual number of elements found. -/
theorem resolve_index_out_of_range (find : Ctx E → Option String → String → Except F (List E))
    (s : String) (index : Nat) (rest : List PathElem) (ctx : Ctx E)
    (pathContext : Option String) (els : List E)
    (hfind : find ctx pathContext s = Except.ok els)
    (hlen : els.length ≤ index) :
    resolve find (SelPath.seq (PathElem.key s :: PathElem.num index :: rest)) ctx pathContext =
      Except.error (RError.thrown
        ("Expected at least " ++ toString (index + 1) ++ " elements at region \"" ++
          extendLabel pathContext s ++ "\", but only found " ++
          toString els.length ++ ".")) := by
  have hnone : els[index]? = none := by
    rw [List.getElem?_eq_none_iff]
    exact hlen
  simp [resolve, resolveSeq, hfind, hnone, tooFewMsg]

/-- Concrete run of `resolve_index_out_of_range`: asking for index 7 of the
five elements at region `"a"` fails with the exact message reporting "at
least 8" expected and "5" found at context label `"a"`. -/
theorem resolve_index_out_of_range_witness :
    resolve findEx (SelPath.seq [PathElem.key "a", PathElem.num 7]) Ctx.root none =
      Except.error (RError.thrown
        "Expected at least 8 elements at region \"a\", but only found 5.") :=
  resolve_index_out_of_range findEx "a" 7 [] Ctx.root none _ rfl (by decide)

/-- Counterexample to claim C5 as stated: resolving `["a", 2]` against five
elements returns the bare selected element (`return el;` in the source), not
a sequence containing exactly that element — the two outcomes are distinct
resolved values. -/
theorem resolve_single_not_sequence_cex :
    resolve findEx (SelPath.seq [PathElem.key "a", PathElem.num 2]) Ctx.root none =
      Except.ok (RValue.single 12)
    ∧ resolve findEx (SelPath.seq [PathElem.key "a", PathElem.num 2]) Ctx.root none ≠
      Except.ok (RValue.many [12]) := by
  constructor
  · rfl
  · decide

/-- Claim C5 (amended): when the path's index is present and in range and
`rest` is empty, resolution returns the selected element itself — a bare
single element handle, not wrapped in a sequence. -/
theorem resolve_index_terminal (find : Ctx E → Option String → String → Except F (List E))
    (s : String) (index : Nat) (ctx : Ctx E) (pathContext : Option String)
    (els : List E) (el : E)
    (hfind : find ctx pathContext s = Except.ok els)
    (hel : els[index]? = some el) :
    resolve find (SelPath.seq [PathElem.key s, PathElem.num index]) ctx pathContext =
      Except.ok (RValue.single el) := by
  simp [resolve, resolveSeq, hfind, hel]

/-- Concrete run of `resolve_index_terminal`: resolving `["a", 2]` against
the five elements at region `"a"` returns the third element alone, bare. -/
theorem resolve_index_terminal_witness :
    resolve findEx (SelPath.seq [PathElem.key "a", PathElem.num 2]) Ctx.root none =
      Except.ok (RValue.single 12) :=
  resolve_index_terminal findEx "a" 2 Ctx.root none _ 12 rfl rfl

/-- Claim C6: when the path's second element (the index) is absent — either
because the array has a single element or because the slot holds an explicit
`undefined` — resolution returns the sequence obtained by resolving
`firstPart` unchanged, and any remaining path elements are ignored. -/
theorem resolve_no_index_ignores_rest (find : Ctx E → Option String → String → Except F (List E))
    (s : String) (rest : List PathElem) (ctx : Ctx E) (pathContext : Option String) :
    resolve find (SelPath.seq [PathElem.key s]) ctx pathContext =
      resolve find (SelPath.str s) ctx pathContext
    ∧ resolve find (SelPath.seq (PathElem.key s :: PathElem.undef :: rest)) ctx pathContext =
      resolve find (SelPath.str s) ctx pathContext := by
  constructor
  · rfl
  · rfl

/-- Claim C7: when the path's index is present and in range and `rest` is
non-empty, resolution recurses on `rest` with the context set to the single
selected element — not the root — and the context label extended with
`firstPart`. -/
theorem resolve_nested_descent (find : Ctx E → Option String → String → Except F (List E))
    (s : String) (index : Nat) (rest : List PathElem) (ctx : Ctx E)
    (pathContext : Option String) (els : List E) (el : E)
    (hfind : find ctx pathContext s = Except.ok els)
    (hel : els[index]? = some el)
    (hrest : rest ≠ []) :
    resolve find (SelPath.seq (PathElem.key s :: PathElem.num index :: rest)) ctx pathContext =
      resolve find (SelPath.seq rest) (Ctx.elem el) (some (extendLabel pathContext s)) := by
  obtain ⟨x, xs, rfl⟩ := List.exists_cons_of_ne_nil hrest
  simp [resolve, resolveSeq, hfind, hel]

/-- Concrete run of `resolve_nested_descent`: resolving `["a", 2, "b"]` from
the root continues with `["b"]` scoped to the selected third element of
region `"a"`, under the extended label `"a"` — and that nested resolution
finds the element `77` that `findEx` exposes only under that element. -/
theorem resolve_nested_descent_witness :
    resolve findEx (SelPath.seq [PathElem.key "a", PathElem.num 2, PathElem.key "b"])
        Ctx.root none =
      resolve findEx (SelPath.seq [PathElem.key "b"]) (Ctx.elem 12) (some "a") :=
  resolve_nested_descent findEx "a" 2 [PathElem.key "b"] Ctx.root none _ 12 rfl rfl
    (by decide)

end LeadfootDriver
